import Mathlib

/-!
Verification of the pygit repository (`src/main.py`), a minimal git-like
version-control engine: a content-addressable object store (blob / tree /
commit objects hashed with SHA-1), an index (staging area), refs/branches,
commit creation and checkout/reconciliation.

The Python source is shallowly embedded: byte strings (`bytes`) and Python
`str` values are both modelled as `List Nat` (their byte sequences; every
string this program manipulates is handled byte-wise, and UTF-8 preserves
code-point order, so byte-lexicographic comparison agrees with Python string
comparison).  Stateful methods of `Repository` become explicit state-passing
functions over `RepoState`, a model of the on-disk layout (`HEAD`,
`refs/heads/*`, `index`, `objects/*`, and the working directory).  Python
exceptions become an explicit `Except PyErr` result; console output becomes
an explicit `List Msg`.  zlib compression is an external library whose only
property the program relies on is losslessness, so it is modelled as an
arbitrary `Codec` (a compress function plus a partially-inverse decompress
function); `idCodec` is the canonical lossless instance used for concrete
evaluation.  SHA-1 (`hashlib.sha1(...).hexdigest()`) is implemented in full
below over `List Nat`.
-/

namespace PyGit

/-- Byte strings (`bytes`) and Python strings are modelled as lists of byte
values. -/
abbrev Bytes := List Nat

/-- Python strings, also modelled as their list of bytes (UTF-8). -/
abbrev Str := List Nat

/-- Python exceptions raised by the program, by kind.  `typeError` covers both
`TypeError` raised by operations on `None` (such as `None + "\n"`) and the
`TypeError: exceptions must derive from BaseException` produced by a
`raise <str>` statement.  `recursionError` models Python exhausting its
recursion limit on a cyclic object graph. -/
inductive PyErr where
  | fileNotFound
  | fileExistsError
  | valueError
  | typeError
  | zlibError
  | nameError
  | indexError
  | recursionError
deriving DecidableEq, Repr

/-- Console output produced by `Repository` methods (the `print` calls),
as structured messages. -/
inductive Msg where
  | nothingToCommit
  | committedTo (branch : Str) (hash : Str)
  | branchDoesNotExist (name : Str)
  | useBOption
  | createdBranch (name : Str)
  | cannotCreateBranch (name : Str) (current : Str)
  | switchedBranch (name : Str)
  | provideBranchName
  | deletedBranch (name : Str)
  | branchLine (isCurrent : Bool) (name : Str)
  | createdBranchAt (name : Str) (commit : Option Str)
  | noCommitsToCreate (name : Str)
  | noCommitsYet
deriving DecidableEq, Repr

/-- A model of `zlib`: a compression function together with a decompression
function that may fail.  The program only relies on decompression being a
lossless inverse of compression, which is stated separately as `Lossless`. -/
structure Codec where
  comp : Bytes → Bytes
  decomp : Bytes → Option Bytes

/-- The decompressor inverts the compressor (zlib's documented contract). -/
def Lossless (z : Codec) : Prop := ∀ bs, z.decomp (z.comp bs) = some bs

/-- The identity codec: a trivially lossless `Codec` used to evaluate the
model on concrete inputs. -/
def idCodec : Codec := ⟨fun bs => bs, fun bs => some bs⟩

theorem idCodec_lossless : Lossless idCodec := fun _ => rfl

/-! ### Python byte-string primitives -/

/-- Index of the first occurrence of byte `t` (`bytes.find` returns -1 when
absent; the absent case is modelled as `none`). -/
def findByte (t : Nat) : Bytes → Option Nat
  | [] => none
  | b :: bs => if b = t then some 0 else (findByte t bs).map (· + 1)

/-- Python `bytes.split(sep)` with a single-byte separator and no maxsplit:
splits at every occurrence; the result is never empty (`b"".split` gives
`[b""]`). -/
def splitByte (t : Nat) : Bytes → List Bytes
  | [] => [[]]
  | b :: bs =>
    if b = t then [] :: splitByte t bs
    else
      match splitByte t bs with
      | [] => [[b]]
      | s :: ss => (b :: s) :: ss

/-- Python `split(sep, 1)`: split at the first occurrence only; `none` when
the separator does not occur (in which case `a, b = s.split(sep, 1)` raises
`ValueError`). -/
def splitByteOnce (t : Nat) : Bytes → Option (Bytes × Bytes)
  | [] => none
  | b :: bs =>
    if b = t then some ([], bs)
    else (splitByteOnce t bs).map (fun p => (b :: p.1, p.2))

/-- Split at the last occurrence of `t`; `none` when absent. -/
def rsplitByteOnce (t : Nat) (bs : Bytes) : Option (Bytes × Bytes) :=
  (splitByteOnce t bs.reverse).map (fun p => (p.2.reverse, p.1.reverse))

/-- Python `rsplit(sep, 2)`: at most three fields, splitting from the right. -/
def rsplitByte2 (t : Nat) (bs : Bytes) : List Bytes :=
  match rsplitByteOnce t bs with
  | none => [bs]
  | some (l, r) =>
    match rsplitByteOnce t l with
    | none => [l, r]
    | some (l2, m) => [l2, m, r]

/-- ASCII whitespace recognised by Python `str.strip()`:
space, tab, newline, carriage return, vertical tab, form feed. -/
def isPySpace (b : Nat) : Bool :=
  b = 32 || b = 9 || b = 10 || b = 13 || b = 11 || b = 12

/-- Python `str.strip()`: removes leading and trailing whitespace. -/
def pyStrip (bs : Bytes) : Bytes :=
  ((bs.dropWhile isPySpace).reverse.dropWhile isPySpace).reverse

/-- Decimal digits of `n`, most significant first, as ASCII bytes; the `Nat`
fuel equals `n` itself, which bounds the number of divisions by 10.  Models
Python `str(n)` for a natural number. -/
def digitsFuel : Nat → Nat → Bytes
  | 0, n => [48 + n % 10]
  | fuel + 1, n => if n < 10 then [48 + n] else digitsFuel fuel (n / 10) ++ [48 + n % 10]

/-- ASCII decimal representation of a natural number (Python `str(n)`). -/
def decimalBytes (n : Nat) : Bytes := digitsFuel n n

/-- ASCII decimal representation of an integer, with a leading minus sign for
negative values (Python `str(i)`). -/
def intBytes (i : Int) : Bytes :=
  if i < 0 then 45 :: decimalBytes (-i).toNat else decimalBytes i.toNat

/-- Value of one ASCII hex digit (`0-9`, `a-f`, `A-F`). -/
def hexDigitVal (b : Nat) : Option Nat :=
  if 48 ≤ b ∧ b ≤ 57 then some (b - 48)
  else if 97 ≤ b ∧ b ≤ 102 then some (b - 87)
  else if 65 ≤ b ∧ b ≤ 70 then some (b - 55)
  else none

/-- Python `bytes.fromhex`: pairs of hex digits to bytes; `ValueError` on a
non-hex digit or odd length.  (Whitespace skipping is not modelled: every
call site passes a SHA-1 hex digest, which contains no whitespace.) -/
def fromhex : Bytes → Except PyErr Bytes
  | [] => .ok []
  | [_] => .error .valueError
  | a :: b :: rest =>
    match hexDigitVal a, hexDigitVal b with
    | some x, some y => (fromhex rest).map (fun r => (16 * x + y) :: r)
    | _, _ => .error .valueError

/-- Lower-case hex character for a nibble. -/
def hexChar (n : Nat) : Nat := if n < 10 then 48 + n else 87 + n

/-- Python `bytes.hex()`: lower-case hex encoding. -/
def toHexBytes (bs : Bytes) : Bytes :=
  bs.foldr (fun b acc => hexChar ((b >>> 4) % 16) :: hexChar (b % 16) :: acc) []

/-- Python `int(s)`: optional surrounding whitespace, optional sign, at least
one decimal digit; `ValueError` otherwise. -/
def pyInt (bs : Bytes) : Except PyErr Int :=
  let s := pyStrip bs
  let (neg, ds) : Bool × Bytes :=
    match s with
    | 45 :: rest => (true, rest)
    | 43 :: rest => (false, rest)
    | other => (false, other)
  if ds = [] then .error .valueError
  else if ds.all (fun b => 48 ≤ b && b ≤ 57) then
    let v : Nat := ds.foldl (fun acc b => 10 * acc + (b - 48)) 0
    .ok (if neg then -(v : Int) else (v : Int))
  else .error .valueError

/-! ### SHA-1 over byte lists

A complete implementation of SHA-1 (`hashlib.sha1`), written with structural
recursion only so that the kernel can evaluate it on concrete inputs.
Words are `Nat` values kept below `2 ^ 32` by explicit `% 4294967296`. -/

/-- Rotate a 32-bit word left by `n` bits. -/
def rotl32 (n x : Nat) : Nat :=
  ((x <<< n) ||| (x >>> (32 - n))) % 4294967296

/-- Big-endian 4-byte encoding of a 32-bit word. -/
def be32 (x : Nat) : Bytes :=
  [(x >>> 24) % 256, (x >>> 16) % 256, (x >>> 8) % 256, x % 256]

/-- Big-endian 8-byte encoding of a 64-bit value. -/
def be64 (x : Nat) : Bytes := be32 (x >>> 32) ++ be32 x

/-- Group bytes into big-endian 32-bit words (4 bytes each). -/
def toWords : Bytes → List Nat
  | a :: b :: c :: d :: rest =>
    (((a % 256) <<< 24) + ((b % 256) <<< 16) + ((c % 256) <<< 8) + (d % 256)) :: toWords rest
  | _ => []

/-- One step of the SHA-1 message-schedule extension, over the reversed list
of words produced so far (index 0 is the most recent). -/
def extendStep (rev : List Nat) : Nat :=
  rotl32 1 ((rev.getD 2 0) ^^^ (rev.getD 7 0) ^^^ (rev.getD 13 0) ^^^ (rev.getD 15 0))

/-- Extend the (reversed) message schedule by `k` further words. -/
def extendWords : Nat → List Nat → List Nat
  | 0, rev => rev
  | k + 1, rev => extendWords k (extendStep rev :: rev)

/-- SHA-1 round function by round index. -/
def sha1F (i b c d : Nat) : Nat :=
  if i < 20 then (b &&& c) ||| ((b ^^^ 4294967295) &&& d)
  else if i < 40 then b ^^^ c ^^^ d
  else if i < 60 then (b &&& c) ||| (b &&& d) ||| (c &&& d)
  else b ^^^ c ^^^ d

/-- SHA-1 round constant by round index. -/
def sha1K (i : Nat) : Nat :=
  if i < 20 then 1518500249
  else if i < 40 then 1859775393
  else if i < 60 then 2400959708
  else 3395469782

/-- The five-word SHA-1 state. -/
abbrev Sha1State := Nat × Nat × Nat × Nat × Nat

/-- One SHA-1 compression round. -/
def sha1Round (iw : Nat × Nat) (st : Sha1State) : Sha1State :=
  let (a, b, c, d, e) := st
  let temp := (rotl32 5 a + sha1F iw.1 b c d + e + sha1K iw.1 + iw.2) % 4294967296
  (temp, a, rotl32 30 b, c, d)

/-- Process one 64-byte block. -/
def sha1Block (h : Sha1State) (block : Bytes) : Sha1State :=
  let ws := (extendWords 64 (toWords block).reverse).reverse
  let (h0, h1, h2, h3, h4) := h
  let (a, b, c, d, e) := ws.enum.foldl (fun st iw => sha1Round iw st) h
  ((h0 + a) % 4294967296, (h1 + b) % 4294967296, (h2 + c) % 4294967296,
   (h3 + d) % 4294967296, (h4 + e) % 4294967296)

/-- SHA-1 padding: append `0x80`, zero bytes to reach 56 mod 64, then the
bit length as a big-endian 64-bit value. -/
def sha1Pad (msg : Bytes) : Bytes :=
  msg ++ (128 :: List.replicate ((119 - (msg.length % 64)) % 64) 0) ++ be64 (8 * msg.length)

/-- Split into 64-byte chunks; the fuel (the list length) bounds the number of
chunks. -/
def chunksFuel : Nat → Bytes → List Bytes
  | 0, _ => []
  | fuel + 1, bs => if bs.isEmpty then [] else bs.take 64 :: chunksFuel fuel (bs.drop 64)

/-- The 20-byte SHA-1 digest of a byte string. -/
def sha1Bytes (msg : Bytes) : Bytes :=
  let padded := sha1Pad msg
  let (h0, h1, h2, h3, h4) :=
    (chunksFuel padded.length padded).foldl sha1Block
      (1732584193, 4023233417, 2562383102, 271733878, 3285377520)
  be32 h0 ++ be32 h1 ++ be32 h2 ++ be32 h3 ++ be32 h4

/-- The 40-character lower-case hex digest (`hashlib.sha1(x).hexdigest()`). -/
def sha1Hex (msg : Bytes) : Str := toHexBytes (sha1Bytes msg)

set_option maxRecDepth 100000 in
/-- Known-answer test: the SHA-1 digest of the three bytes of the string
consisting of the first three lower-case letters is the standard test vector
beginning a9993e36. -/
theorem sha1_abc_vector :
    sha1Hex [97, 98, 99] =
      [97, 57, 57, 57, 51, 101, 51, 54, 52, 55, 48, 54, 56, 49, 54, 97, 98, 97,
       51, 101, 50, 53, 55, 49, 55, 56, 53, 48, 99, 50, 54, 99, 57, 99, 100, 48,
       100, 56, 57, 100] := by decide

/-! ### Object model (`GitObject`, `Blob`, `Tree`, `Commit`)

`GitObject` carries a kind string and raw content.  The Python classes
`Blob`, `Tree`, `Commit` are subclasses whose only essential state is the
`(type, content)` pair; they are modelled by constructor functions producing
`GitObject` values (plus the structured data used to build the content). -/

/-- Bytes of the kind string for blobs. -/
def blobType : Str := [98, 108, 111, 98]

/-- Bytes of the kind string for trees. -/
def treeType : Str := [116, 114, 101, 101]

/-- Bytes of the kind string for commits. -/
def commitType : Str := [99, 111, 109, 109, 105, 116]

/-- Mode string for a subdirectory entry. -/
def mode40000 : Str := [52, 48, 48, 48, 48]

/-- Mode string for a regular-file entry. -/
def mode100644 : Str := [49, 48, 48, 54, 52, 52]

/-- A stored object: kind and content (`GitObject.__init__`). -/
structure GitObject where
  type : Str
  content : Bytes
deriving DecidableEq, Repr

/-- The header `"<type> <len(content)>\0"` prefixed to content both for
hashing and for serialization (`GitObject.hash` / `GitObject.serialize`). -/
def headerBytes (o : GitObject) : Bytes :=
  o.type ++ [32] ++ decimalBytes o.content.length ++ [0]

/-- `GitObject.hash`: the SHA-1 hex digest of header plus content. -/
def gitHash (o : GitObject) : Str := sha1Hex (headerBytes o ++ o.content)

/-- `GitObject.serialize`: compress header plus content. -/
def serialize (z : Codec) (o : GitObject) : Bytes := z.comp (headerBytes o ++ o.content)

/-- `GitObject.deserialize`: decompress, split at the first NUL into header
and content (when `find` reports -1 the Python slices become `dec[:-1]` and
`dec[0:]`), split the header on spaces into exactly a type and a size
(`ValueError` otherwise), and rebuild the object.  The advisory size field is
not validated.  `obj_type.decode()` is the identity in this byte-level model
(faithful on the ASCII kind strings this program ever writes). -/
def deserialize (z : Codec) (data : Bytes) : Except PyErr GitObject :=
  match z.decomp data with
  | none => .error .zlibError
  | some dec =>
    let hc : Bytes × Bytes :=
      match findByte 0 dec with
      | some i => (dec.take i, dec.drop (i + 1))
      | none => (dec.dropLast, dec)
    match splitByte 32 hc.1 with
    | [t, _] => .ok ⟨t, hc.2⟩
    | _ => .error .valueError

/-- `Blob(content)`: an object of kind blob with verbatim content. -/
def Blob (c : Bytes) : GitObject := ⟨blobType, c⟩

/-! ### Tree entries: canonical order and encoding -/

/-- One tree entry: `(mode, name, obj_hash)`, all Python strings. -/
abbrev Entry := Str × Str × Str

/-- Python tuple comparison on `(mode, name, obj_hash)`: lexicographic by
component, with component strings compared lexicographically (the `List Nat`
linear order).  This is the order used by `sorted(self.entries)`. -/
def entryLe (x y : Entry) : Prop :=
  x.1 < y.1 ∨ (x.1 = y.1 ∧ (x.2.1 < y.2.1 ∨ (x.2.1 = y.2.1 ∧ x.2.2 ≤ y.2.2)))

instance : DecidableRel entryLe := fun x y => by
  unfold entryLe; infer_instance

instance : IsTotal Entry entryLe := by
  constructor
  rintro ⟨a1, b1, c1⟩ ⟨a2, b2, c2⟩
  simp only [entryLe]
  rcases lt_trichotomy a1 a2 with h | h | h
  · exact Or.inl (Or.inl h)
  · subst h
    rcases lt_trichotomy b1 b2 with h | h | h
    · exact Or.inl (Or.inr ⟨rfl, Or.inl h⟩)
    · subst h
      rcases le_total c1 c2 with h | h
      · exact Or.inl (Or.inr ⟨rfl, Or.inr ⟨rfl, h⟩⟩)
      · exact Or.inr (Or.inr ⟨rfl, Or.inr ⟨rfl, h⟩⟩)
    · exact Or.inr (Or.inr ⟨rfl, Or.inl h⟩)
  · exact Or.inr (Or.inl h)

instance : IsTrans Entry entryLe := by
  constructor
  rintro ⟨a1, b1, c1⟩ ⟨a2, b2, c2⟩ ⟨a3, b3, c3⟩ h12 h23
  simp only [entryLe] at h12 h23 ⊢
  rcases h12 with h12 | ⟨rfl, h12⟩
  · rcases h23 with h23 | ⟨rfl, _⟩
    · exact Or.inl (lt_trans h12 h23)
    · exact Or.inl h12
  · rcases h23 with h23 | ⟨rfl, h23⟩
    · exact Or.inl h23
    · rcases h12 with h12 | ⟨rfl, h12⟩
      · rcases h23 with h23 | ⟨rfl, _⟩
        · exact Or.inr ⟨rfl, Or.inl (lt_trans h12 h23)⟩
        · exact Or.inr ⟨rfl, Or.inl h12⟩
      · rcases h23 with h23 | ⟨rfl, h23⟩
        · exact Or.inr ⟨rfl, Or.inl h23⟩
        · exact Or.inr ⟨rfl, Or.inr ⟨rfl, le_trans h12 h23⟩⟩

instance : IsAntisymm Entry entryLe := by
  constructor
  rintro ⟨a1, b1, c1⟩ ⟨a2, b2, c2⟩ h12 h21
  simp only [entryLe] at h12 h21
  rcases h12 with h12 | ⟨rfl, h12⟩
  · rcases h21 with h21 | ⟨rfl, _⟩
    · exact absurd h21 (lt_asymm h12)
    · exact absurd h12 (lt_irrefl _)
  · rcases h21 with h21 | ⟨_, h21⟩
    · exact absurd h21 (lt_irrefl _)
    · rcases h12 with h12 | ⟨rfl, h12⟩
      · rcases h21 with h21 | ⟨rfl, _⟩
        · exact absurd h21 (lt_asymm h12)
        · exact absurd h12 (lt_irrefl _)
      · rcases h21 with h21 | ⟨_, h21⟩
        · exact absurd h21 (lt_irrefl _)
        · simp [le_antisymm h12 h21]

/-- Encode a list of entries in the given order:
`"<mode> <name>\0" + bytes.fromhex(obj_hash)` per entry (`ValueError` on an
invalid hex hash, as raised by `bytes.fromhex`). -/
def serializeEntriesGo : List Entry → Except PyErr Bytes
  | [] => .ok []
  | (m, n, h) :: rest =>
    match fromhex h with
    | .error e => .error e
    | .ok raw =>
      match serializeEntriesGo rest with
      | .error e => .error e
      | .ok tail => .ok (m ++ [32] ++ n ++ [0] ++ raw ++ tail)

/-- `Tree._serialize_entries`: encode the entries sorted by the (mode, name,
obj_hash) tuple order. -/
def serializeEntries (entries : List Entry) : Except PyErr Bytes :=
  serializeEntriesGo (List.insertionSort entryLe entries)

/-- Build the `GitObject` of a tree with the given entries
(`Tree.__init__` plus `add_entry` calls). -/
def treeObj (entries : List Entry) : Except PyErr GitObject :=
  (serializeEntries entries).map (fun c => ⟨treeType, c⟩)

/-- Loop of `Tree.from_content`: scan for NUL separators, split each
`mode_name` at the first space (`ValueError` if there is none), take the next
20 bytes as the raw hash and re-encode them in hex.  The fuel (the content
length) strictly exceeds the number of iterations, since every iteration
consumes at least 21 bytes. -/
def treeEntriesGo : Nat → Bytes → Except PyErr (List Entry)
  | 0, _ => .ok []
  | fuel + 1, rest =>
    match findByte 0 rest with
    | none => .ok []
    | some i =>
      match splitByteOnce 32 (rest.take i) with
      | none => .error .valueError
      | some (m, n) =>
        let h := toHexBytes ((rest.drop (i + 1)).take 20)
        (treeEntriesGo fuel (rest.drop (i + 21))).map (fun es => (m, n, h) :: es)

/-- `Tree.from_content`: decode stored tree content back into entries. -/
def treeFromContent (content : Bytes) : Except PyErr (List Entry) :=
  treeEntriesGo content.length content

/-! ### Commit objects -/

/-- Parsed commit data (`Commit.__init__` fields).  `tree_hash`, `author` and
`commiter` are `Option` because `Commit.from_content` leaves them `None` when
the corresponding line is absent. -/
structure CommitData where
  tree_hash : Option Str
  parent_hash : List Str
  author : Option Str
  commiter : Option Str
  message : Str
  timestamp : Int
deriving DecidableEq, Repr

/-- Python f-string rendering of an optional string (`None` renders as the
four bytes of the word None). -/
def pyShowOpt : Option Str → Str
  | none => [78, 111, 110, 101]
  | some s => s

/-- Join lines with newline bytes (Python `"\n".join`). -/
def joinLines (ls : List Bytes) : Bytes := List.intercalate [10] ls

/-- Leading bytes of a tree line (the word tree and a space). -/
def treeLead : Str := [116, 114, 101, 101, 32]

/-- Leading bytes of a parent line. -/
def parentLead : Str := [112, 97, 114, 101, 110, 116, 32]

/-- Leading bytes of an author line. -/
def authorLead : Str := [97, 117, 116, 104, 111, 114, 32]

/-- Leading bytes of a commiter line (the source's fixed spelling). -/
def commiterLead : Str := [99, 111, 109, 109, 105, 116, 101, 114, 32]

/-- Timezone suffix bytes (a space, a plus sign and four zeros). -/
def tzSuffixBytes : Bytes := [32, 43, 48, 48, 48, 48]

/-- `Commit._serialize_commit`: tree line, parent lines, author and commiter
lines with timestamp and fixed +0000 timezone, a blank line, then the
message. -/
def commitSerialize (cd : CommitData) : Bytes :=
  joinLines
    (((treeLead ++ pyShowOpt cd.tree_hash) ::
      cd.parent_hash.map (fun p => parentLead ++ p)) ++
      [authorLead ++ pyShowOpt cd.author ++ [32] ++ intBytes cd.timestamp ++ tzSuffixBytes,
       commiterLead ++ pyShowOpt cd.commiter ++ [32] ++ intBytes cd.timestamp ++ tzSuffixBytes,
       [],
       cd.message])

/-- Mutable accumulator of the `Commit.from_content` parsing loop. -/
structure CommitAcc where
  tree_hash : Option Str
  parent_hash : List Str
  author : Option Str
  commiter : Option Str
  timestamp : Option Int

/-- Finish `Commit.from_content`: referencing `timestamp` raises `NameError`
when no author line assigned it. -/
def commitFinish (acc : CommitAcc) (message : Str) : Except PyErr CommitData :=
  match acc.timestamp with
  | none => .error .nameError
  | some ts => .ok ⟨acc.tree_hash, acc.parent_hash, acc.author, acc.commiter, message, ts⟩

/-- The line loop of `Commit.from_content`: dispatch on the line's leading
word; an empty line breaks with the remaining lines as the message; if no
empty line occurs, `message_start` stays 0 and the message is the join of all
lines (`orig`). -/
def commitLoop (orig : List Bytes) : List Bytes → CommitAcc → Except PyErr CommitData
  | [], acc => commitFinish acc (joinLines orig)
  | line :: rest, acc =>
    if treeLead.isPrefixOf line then
      commitLoop orig rest { acc with tree_hash := some (line.drop 5) }
    else if parentLead.isPrefixOf line then
      commitLoop orig rest { acc with parent_hash := acc.parent_hash ++ [line.drop 7] }
    else if authorLead.isPrefixOf line then
      let parts := rsplitByte2 32 (line.drop 7)
      match parts.get? 1 with
      | none => .error .indexError
      | some tsBytes =>
        match pyInt tsBytes with
        | .error e => .error e
        | .ok ts =>
          commitLoop orig rest
            { acc with author := some (parts.getD 0 []), timestamp := some ts }
    else if commiterLead.isPrefixOf line then
      commitLoop orig rest
        { acc with commiter := some ((rsplitByte2 32 (line.drop 9)).getD 0 []) }
    else if line = [] then
      commitFinish acc (joinLines rest)
    else
      commitLoop orig rest acc

/-- `Commit.from_content`: split content into newline-separated lines and run
the parsing loop.  (`content.decode()` is the identity in this byte-level
model; the zero-timestamp wall-clock fallback of `Commit.__init__` is not
reachable through any property proved here.) -/
def commitFromContent (content : Bytes) : Except PyErr CommitData :=
  let lines := splitByte 10 content
  commitLoop lines lines ⟨none, [], none, none, none⟩

/-! ### Lemmas about the byte-string primitives -/

theorem findByte_eq_none {t : Nat} : ∀ {bs : Bytes}, t ∉ bs → findByte t bs = none
  | [], _ => rfl
  | b :: bs, h => by
    have hb : ¬b = t := fun e => h (by simp [e])
    have hbs : t ∉ bs := fun e => h (List.mem_cons_of_mem _ e)
    simp [findByte, hb, findByte_eq_none hbs]

theorem findByte_split {t : Nat} : ∀ (pre suf : Bytes), t ∉ pre →
    findByte t (pre ++ t :: suf) = some pre.length
  | [], suf, _ => by simp [findByte]
  | a :: pre, suf, h => by
    have ha : ¬a = t := fun e => h (by simp [e])
    have hpre : t ∉ pre := fun e => h (List.mem_cons_of_mem _ e)
    simp [findByte, ha, findByte_split pre suf hpre]

theorem splitByte_eq_single {t : Nat} : ∀ {bs : Bytes}, t ∉ bs → splitByte t bs = [bs]
  | [], _ => rfl
  | b :: bs, h => by
    have hb : ¬b = t := fun e => h (by simp [e])
    have hbs : t ∉ bs := fun e => h (List.mem_cons_of_mem _ e)
    simp [splitByte, hb, splitByte_eq_single hbs]

theorem splitByte_pair {t : Nat} : ∀ (a b : Bytes), t ∉ a → t ∉ b →
    splitByte t (a ++ t :: b) = [a, b]
  | [], b, _, hb => by simp [splitByte, splitByte_eq_single hb]
  | x :: a, b, ha, hb => by
    have hx : ¬x = t := fun e => ha (by simp [e])
    have ha2 : t ∉ a := fun e => ha (List.mem_cons_of_mem _ e)
    simp [splitByte, hx, splitByte_pair a b ha2 hb]

theorem drop_append_len_succ : ∀ (pre : Bytes) (x : Nat) (suf : Bytes),
    (pre ++ x :: suf).drop (pre.length + 1) = suf
  | [], _, _ => rfl
  | _ :: pre, x, suf => drop_append_len_succ pre x suf

theorem digitsFuel_mem (fuel : Nat) : ∀ n b, b ∈ digitsFuel fuel n → 48 ≤ b ∧ b ≤ 57 := by
  induction fuel with
  | zero => intro n b h; simp [digitsFuel] at h; omega
  | succ f ih =>
    intro n b h
    simp only [digitsFuel] at h
    split at h
    · simp at h; omega
    · rcases List.mem_append.mp h with h | h
      · exact ih _ _ h
      · simp at h; omega

theorem decimalBytes_mem {n b : Nat} (h : b ∈ decimalBytes n) : 48 ≤ b ∧ b ≤ 57 :=
  digitsFuel_mem n n b h

/-- Deserializing a serialized object recovers it exactly, for any lossless
codec, provided the kind string contains no NUL and no space byte (true of
blob, tree and commit). -/
theorem deserialize_serialize (z : Codec) (hz : Lossless z) (o : GitObject)
    (h0 : (0 : Nat) ∉ o.type) (h32 : (32 : Nat) ∉ o.type) :
    deserialize z (serialize z o) = .ok o := by
  have hz2 : ∀ bs, z.decomp (z.comp bs) = some bs := hz
  have hshape : headerBytes o ++ o.content
      = (o.type ++ 32 :: decimalBytes o.content.length) ++ 0 :: o.content := by
    simp [headerBytes]
  have hd32 : (32 : Nat) ∉ decimalBytes o.content.length := by
    intro hmem; have := decimalBytes_mem hmem; omega
  have hnot : (0 : Nat) ∉ o.type ++ 32 :: decimalBytes o.content.length := by
    intro hmem
    rcases List.mem_append.mp hmem with h | h
    · exact h0 h
    · rcases List.mem_cons.mp h with h | h
      · simp at h
      · have := decimalBytes_mem h; omega
  simp only [deserialize, serialize, hz2, hshape,
    findByte_split _ _ hnot, List.take_left, drop_append_len_succ,
    splitByte_pair _ _ h32 hd32]

/-! ### Theorems for the object-model claims -/

set_option maxRecDepth 100000 in
/-- C5: for all byte contents c, deserializing the serialized form of Blob(c)
yields an object whose hash equals hash(Blob(c)) — the full object round-trips,
hence so does the hash — for any lossless compression codec, including when c
itself contains NUL bytes (the first NUL of the decompressed stream is the
header separator, since the kind and length fields contain no NUL). -/
theorem c5_blob_roundtrip (z : Codec) (hz : Lossless z) (c : Bytes) :
    deserialize z (serialize z (Blob c)) = .ok (Blob c) ∧
    (deserialize z (serialize z (Blob c))).map gitHash = .ok (gitHash (Blob c)) := by
  have hb0 : (0 : Nat) ∉ blobType := by decide
  have hb32 : (32 : Nat) ∉ blobType := by decide
  have h := deserialize_serialize z hz (Blob c) hb0 hb32
  exact ⟨h, by rw [h]; rfl⟩

/-- Witness for C5 at a concrete content containing a NUL byte, under the
identity codec. -/
theorem c5_blob_roundtrip_witness :
    Lossless idCodec ∧
    (deserialize idCodec (serialize idCodec (Blob [0, 65, 0, 66])) = .ok (Blob [0, 65, 0, 66]) ∧
     (deserialize idCodec (serialize idCodec (Blob [0, 65, 0, 66]))).map gitHash =
       .ok (gitHash (Blob [0, 65, 0, 66]))) :=
  ⟨idCodec_lossless, c5_blob_roundtrip idCodec idCodec_lossless [0, 65, 0, 66]⟩

/-- C6: tree content is an order-independent function of the entry multiset:
any two insertion orders (permutations) of the same entries produce identical
content bytes and identical tree hashes, because `_serialize_entries` renders
the entries sorted by the (mode, name, obj_hash) tuple order. -/
theorem c6_tree_content_perm_invariant (e₁ e₂ : List Entry) (h : e₁.Perm e₂) :
    serializeEntries e₁ = serializeEntries e₂ ∧
    (treeObj e₁).map gitHash = (treeObj e₂).map gitHash := by
  have key : List.insertionSort entryLe e₁ = List.insertionSort entryLe e₂ :=
    List.eq_of_perm_of_sorted
      ((List.perm_insertionSort entryLe e₁).trans
        (h.trans (List.perm_insertionSort entryLe e₂).symm))
      (List.sorted_insertionSort entryLe e₁)
      (List.sorted_insertionSort entryLe e₂)
  have hc : serializeEntries e₁ = serializeEntries e₂ := by
    unfold serializeEntries; rw [key]
  exact ⟨hc, by unfold treeObj; rw [hc]⟩

/-- Witness for C6 at two concrete insertion orders of the same three
entries (names a, b and dir d with mode 40000, hashes of two hex digits). -/
theorem c6_tree_content_perm_invariant_witness :
    ([([49, 48, 48, 54, 52, 52], [97], [97, 97]),
      ([49, 48, 48, 54, 52, 52], [98], [98, 98]),
      ([52, 48, 48, 48, 48], [100], [99, 99])] : List Entry).Perm
      [([52, 48, 48, 48, 48], [100], [99, 99]),
       ([49, 48, 48, 54, 52, 52], [98], [98, 98]),
       ([49, 48, 48, 54, 52, 52], [97], [97, 97])] ∧
    serializeEntries
        [([49, 48, 48, 54, 52, 52], [97], [97, 97]),
         ([49, 48, 48, 54, 52, 52], [98], [98, 98]),
         ([52, 48, 48, 48, 48], [100], [99, 99])] =
      serializeEntries
        [([52, 48, 48, 48, 48], [100], [99, 99]),
         ([49, 48, 48, 54, 52, 52], [98], [98, 98]),
         ([49, 48, 48, 54, 52, 52], [97], [97, 97])] :=
  ⟨by decide, (c6_tree_content_perm_invariant _ _ (by decide)).1⟩

/-- C9 counterexample: the seven bytes of the string consisting of the word
blob, a space, the digit 6 and the letter x decompress (identity codec) to a
byte string containing no NUL, yet `deserialize` does not fail: Python
`find` returns -1, the header becomes all bytes but the last, it splits on
the single space into exactly two fields, and an object is silently returned
whose content is the entire decompressed input. -/
theorem c9_deserialize_no_nul_succeeds :
    idCodec.decomp [98, 108, 111, 98, 32, 54, 120] = some [98, 108, 111, 98, 32, 54, 120] ∧
    (0 : Nat) ∉ [98, 108, 111, 98, 32, 54, 120] ∧
    deserialize idCodec [98, 108, 111, 98, 32, 54, 120] =
      .ok ⟨[98, 108, 111, 98], [98, 108, 111, 98, 32, 54, 120]⟩ :=
  ⟨rfl, by decide, rfl⟩

/-- C9 amended: deserialize fails whenever decompression fails; and on a
decompressed form containing no NUL byte it never performs a well-formed
header/content split: it either raises ValueError (when all bytes but the
last do not split on spaces into exactly two fields) or silently returns an
object whose content is the entire decompressed input. -/
theorem c9_deserialize_no_nul_amended (z : Codec) (data : Bytes) :
    (z.decomp data = none → deserialize z data = .error .zlibError) ∧
    (∀ dec, z.decomp data = some dec → (0 : Nat) ∉ dec →
      deserialize z data = .error .valueError ∨
      ∃ t, deserialize z data = .ok ⟨t, dec⟩) := by
  constructor
  · intro h; simp [deserialize, h]
  · intro dec hdec h0
    simp only [deserialize, hdec, findByte_eq_none h0]
    rcases hsplit : splitByte 32 dec.dropLast with _ | ⟨t, _ | ⟨s, _ | _⟩⟩
    · exact Or.inl rfl
    · exact Or.inl rfl
    · exact Or.inr ⟨t, rfl⟩
    · exact Or.inl rfl

/-- Witness for C9 amended: a failing decompressor yields the zlib error, and
the three bytes of the word abc (no NUL, no space split into two fields)
yield ValueError under the identity codec. -/
theorem c9_deserialize_no_nul_amended_witness :
    (Codec.mk (fun bs => bs) (fun _ => none)).decomp [1, 2] = none ∧
    deserialize (Codec.mk (fun bs => bs) (fun _ => none)) [1, 2] = .error .zlibError ∧
    idCodec.decomp [97, 98, 99] = some [97, 98, 99] ∧
    (0 : Nat) ∉ [97, 98, 99] ∧
    (deserialize idCodec [97, 98, 99] = .error .valueError ∨
      ∃ t, deserialize idCodec [97, 98, 99] = .ok ⟨t, [97, 98, 99]⟩) :=
  ⟨rfl, (c9_deserialize_no_nul_amended (Codec.mk (fun bs => bs) (fun _ => none)) [1, 2]).1 rfl,
   rfl, by decide,
   (c9_deserialize_no_nul_amended idCodec [97, 98, 99]).2 [97, 98, 99] rfl (by decide)⟩

/-! ### Repository state

`RepoState` models the on-disk layout rooted at `self.path`:
the `HEAD` file, the ref files under `refs/heads/`, the persisted index
mapping, the sharded object store under `objects/`, and the working
directory's regular files and directories (paths relative to the root, as
component lists). -/

/-- Keys of the sharded object store: directory (first two hex chars) and
file name (remaining chars) of a hex digest. -/
abbrev ShardKey := Str × Str

/-- The object store: sharded path to stored (compressed) bytes. -/
abbrev Store := List (ShardKey × Bytes)

/-- Working-directory paths relative to the repository root, as a list of
name components. -/
abbrev PyPath := List Str

/-- The sharded path of a hex digest: first two characters form the
directory, the rest the file name. -/
def shardKey (h : Str) : ShardKey := (h.take 2, h.drop 2)

/-- Association-list lookup (a model of file existence plus read). -/
def assocGet {α β : Type} [DecidableEq α] : List (α × β) → α → Option β
  | [], _ => none
  | (k0, v0) :: rest, k => if k0 = k then some v0 else assocGet rest k

/-- Association-list update: replace in place when the key is present
(Python dict assignment keeps insertion order), append otherwise. -/
def assocSet {α β : Type} [DecidableEq α] : List (α × β) → α → β → List (α × β)
  | [], k, v => [(k, v)]
  | (k0, v0) :: rest, k, v =>
    if k0 = k then (k, v) :: rest else (k0, v0) :: assocSet rest k v

/-- Association-list removal of a key (file deletion; no-op when absent). -/
def assocRemove {α β : Type} [DecidableEq α] : List (α × β) → α → List (α × β)
  | [], _ => []
  | (k0, v0) :: rest, k =>
    if k0 = k then rest else (k0, v0) :: assocRemove rest k

/-- The filesystem state of one repository. -/
structure RepoState where
  /-- Content of the HEAD file, when it exists. -/
  head : Option Bytes
  /-- Ref files under refs/heads: branch name to raw file content. -/
  refsHeads : List (Str × Bytes)
  /-- The persisted index mapping (path to blob hex hash).  An absent or
  unparsable index file loads as the empty mapping, represented by `[]`. -/
  index : List (Str × Str)
  /-- The sharded object store. -/
  objects : Store
  /-- Regular files in the working directory (outside the metadata dir). -/
  workFiles : List (PyPath × Bytes)
  /-- Directories created in the working directory. -/
  workDirs : List PyPath
deriving DecidableEq, Repr

/-- Bytes of the default branch name (the word master). -/
def masterName : Str := [109, 97, 115, 116, 101, 114]

/-- Bytes of the fallback branch name (the word HEAD in capitals). -/
def headName : Str := [72, 69, 65, 68]

/-- The sixteen leading bytes of a symbolic HEAD file: the word ref, a colon,
a space, then refs/heads/ . -/
def refHeadLead : Str :=
  [114, 101, 102, 58, 32, 114, 101, 102, 115, 47, 104, 101, 97, 100, 115, 47]

/-- `Repository.store_object`: hash the object; if no file exists at the
sharded path, serialize and write it (the `mkdir(exist_ok=True)` of the shard
directory has no observable effect in this model); return the hex digest
either way. -/
def store_object (z : Codec) (fs : Store) (obj : GitObject) : Str × Store :=
  let obj_hash := gitHash obj
  match assocGet fs (shardKey obj_hash) with
  | some _ => (obj_hash, fs)
  | none => (obj_hash, (shardKey obj_hash, serialize z obj) :: fs)

/-- `Repository.load_object`: read the sharded path (`FileNotFoundError`
when absent) and deserialize. -/
def load_object (z : Codec) (fs : Store) (obj_hash : Str) : Except PyErr GitObject :=
  match assocGet fs (shardKey obj_hash) with
  | none => .error .fileNotFound
  | some bytes => deserialize z bytes

/-- `Repository.load_index`: the persisted mapping (absent or corrupt loads
as empty, which `[]` represents). -/
def load_index (st : RepoState) : List (Str × Str) := st.index

/-- `Repository.save_index`: overwrite the persisted mapping. -/
def save_index (st : RepoState) (idx : List (Str × Str)) : RepoState :=
  { st with index := idx }

/-- `Repository.get_current_branch`: absent HEAD defaults to master; a HEAD
whose stripped content starts with the sixteen-byte symbolic lead yields the
remainder; anything else yields the literal four-byte name HEAD. -/
def get_current_branch (st : RepoState) : Str :=
  match st.head with
  | none => masterName
  | some content =>
    let c := pyStrip content
    if refHeadLead.isPrefixOf c then c.drop 16 else headName

/-- `Repository.get_branch_commit`: read and strip the ref file, `none` when
the file does not exist. -/
def get_branch_commit (st : RepoState) (branch : Str) : Option Str :=
  (assocGet st.refsHeads branch).map pyStrip

/-- `Repository.set_branch_commit`: write the ref file as hash plus newline.
The parameter is optional because `Repository.branch` passes the possibly
absent current commit: concatenating `None` with the newline string raises
`TypeError` before any write happens. -/
def set_branch_commit (st : RepoState) (branch : Str) (commit_hash : Option Str) :
    RepoState × Except PyErr Unit :=
  match commit_hash with
  | none => (st, .error .typeError)
  | some h => ({ st with refsHeads := assocSet st.refsHeads branch (h ++ [10]) }, .ok ())

/-- Python truthiness of an optional string (`None` and the empty string are
falsy). -/
def optTruthy : Option Str → Bool
  | none => false
  | some s => !s.isEmpty

/-! ### Tree builder (`create_tree_from_index`) -/

/-- A Python value stored in the nested directory dictionaries: either a blob
hash string (file leaf) or a nested dict (directory). -/
inductive PyVal where
  | str (s : Str)
  | dict (items : List (Str × PyVal))

/-- Walk of `parts[1:]` inside `create_tree_from_index`: descend through the
nested dicts creating empty dicts for missing components, and assign the blob
hash at the last component.  Reaching a string where a dict is needed raises
`TypeError` (string item assignment / string indexing in the source). -/
def insertNested : List (Str × PyVal) → List Str → Str → Except PyErr (List (Str × PyVal))
  | cur, [], _ => .ok cur
  | cur, [last], h => .ok (assocSet cur last (.str h))
  | cur, part :: rest, h =>
    match assocGet cur part with
    | none =>
      match insertNested [] rest h with
      | .error e => .error e
      | .ok d => .ok (assocSet cur part (.dict d))
    | some (.dict d) =>
      match insertNested d rest h with
      | .error e => .error e
      | .ok d2 => .ok (assocSet cur part (.dict d2))
    | some (.str _) => .error .typeError

/-- The partition loop of `create_tree_from_index`: single-component paths go
to `files`, multi-component paths are inserted into the nested dict for their
leading directory (created empty when first seen). -/
def partitionGo : List (Str × Str) → List (Str × Str) → List (Str × PyVal) →
    Except PyErr (List (Str × Str) × List (Str × PyVal))
  | [], files, dirs => .ok (files, dirs)
  | (p, h) :: rest, files, dirs =>
    match splitByte 47 p with
    | [single] => partitionGo rest (assocSet files single h) dirs
    | parts =>
      let dir_name := parts.headD []
      let subparts := parts.drop 1
      match assocGet dirs dir_name with
      | some (.str _) => .error .typeError
      | some (.dict d) =>
        match insertNested d subparts h with
        | .error e => .error e
        | .ok d2 => partitionGo rest files (assocSet dirs dir_name (.dict d2))
      | none =>
        match insertNested [] subparts h with
        | .error e => .error e
        | .ok d2 => partitionGo rest files (assocSet dirs dir_name (.dict d2))

/-- The body of `create_tree_recursive`: iterate the dict items in order; a
string value adds a file entry (`add_entry` re-serializes, so an invalid hex
hash raises here); a dict value first recursively builds and stores the
subtree, then adds a directory entry with its hash. -/
def buildEntries (z : Codec) : Store → List (Str × PyVal) → List Entry →
    Except PyErr (List Entry × Store)
  | fs, [], acc => .ok (acc, fs)
  | fs, (name, .str h) :: rest, acc =>
    match serializeEntries (acc ++ [(mode100644, name, h)]) with
    | .error err => .error err
    | .ok _ => buildEntries z fs rest (acc ++ [(mode100644, name, h)])
  | fs, (name, .dict d) :: rest, acc =>
    match buildEntries z fs d [] with
    | .error err => .error err
    | .ok (subEntries, fs1) =>
      match serializeEntries subEntries with
      | .error err => .error err
      | .ok content =>
        let hs := store_object z fs1 ⟨treeType, content⟩
        match serializeEntries (acc ++ [(mode40000, name, hs.1)]) with
        | .error err => .error err
        | .ok _ => buildEntries z hs.2 rest (acc ++ [(mode40000, name, hs.1)])
  termination_by _ items _ => sizeOf items

/-- `create_tree_recursive` applied to one dict: build the entries, then
serialize and store the tree, returning its hash. -/
def createTreeRecursive (z : Codec) (fs : Store) (items : List (Str × PyVal)) :
    Except PyErr (Str × Store) :=
  match buildEntries z fs items [] with
  | .error e => .error e
  | .ok (entries, fs1) =>
    match serializeEntries entries with
    | .error e => .error e
    | .ok content => .ok (store_object z fs1 ⟨treeType, content⟩)

/-- `Repository.create_tree_from_index`: on an empty index the source builds
the empty Tree, stores it, and then executes `raise self.store_object(tree)`:
the store happens (the empty tree is written), after which raising the
returned string throws `TypeError` (exceptions must derive from
BaseException).  On a non-empty index, partition the paths, assemble the root
entries (files first, then the directory dicts), and recursively build and
store the trees bottom-up, returning the root hash. -/
def create_tree_from_index (z : Codec) (st : RepoState) : RepoState × Except PyErr Str :=
  let index := load_index st
  if index = [] then
    let hs := store_object z st.objects ⟨treeType, []⟩
    ({ st with objects := hs.2 }, .error .typeError)
  else
    match partitionGo index [] [] with
    | .error e => (st, .error e)
    | .ok (files, dirs) =>
      let rootEntries := dirs.foldl (fun acc nv => assocSet acc nv.1 nv.2)
        (files.map (fun fh => (fh.1, PyVal.str fh.2)))
      match createTreeRecursive z st.objects rootEntries with
      | .error e => (st, .error e)
      | .ok hfs => ({ st with objects := hfs.2 }, .ok hfs.1)

/-! ### File-set computation (`get_files_from_tree`) -/

/-- Entry loop of `get_files_from_tree`: extend the path for each entry;
directory entries recurse through `step` (the same function at smaller
recursion budget) with the separator appended, file entries contribute their
full relative path. -/
def getFilesGo (step : Str → Str → List Str) : List Entry → Str → List Str
  | [], _ => []
  | (m, n, h) :: rest, pre =>
    let full := pre ++ n
    if m = mode40000 then step h (full ++ [47]) ++ getFilesGo step rest pre
    else full :: getFilesGo step rest pre

/-- `Repository.get_files_from_tree`: every level is wrapped in its own
try/except, so an unreadable or unparsable tree degrades to the empty set
(with a warning print, not modelled).  The fuel models Python's recursion
limit: exhausting it raises `RecursionError`, which the innermost handler
also turns into an empty set. -/
def get_files_from_tree (z : Codec) (fs : Store) : Nat → Str → Str → List Str
  | 0, _, _ => []
  | fuel + 1, tree_hash, pre =>
    match load_object z fs tree_hash with
    | .error _ => []
    | .ok obj =>
      match treeFromContent obj.content with
      | .error _ => []
      | .ok entries => getFilesGo (fun h p => get_files_from_tree z fs fuel h p) entries pre

/-! ### Working-directory mutation -/

/-- `Path.mkdir(exist_ok=True)`: no-op when the directory exists; raises
`FileExistsError` when a regular file occupies the path; raises
`FileNotFoundError` when the parent directory is missing. -/
def pyMkdir (st : RepoState) (p : PyPath) : Except PyErr RepoState :=
  if p ∈ st.workDirs then .ok st
  else if (assocGet st.workFiles p).isSome then .error .fileExistsError
  else if p.dropLast = [] ∨ p.dropLast ∈ st.workDirs then
    .ok { st with workDirs := p :: st.workDirs }
  else .error .fileNotFound

/-- `Path.write_bytes`: raises `FileNotFoundError` when the parent directory
is missing, otherwise creates or overwrites the file. -/
def pyWriteFile (st : RepoState) (p : PyPath) (content : Bytes) : Except PyErr RepoState :=
  if p.dropLast = [] ∨ p.dropLast ∈ st.workDirs then
    .ok { st with workFiles := assocSet st.workFiles p content }
  else .error .fileNotFound

/-- Entry loop of `restore_files_from_tree`.  NOTE the faithful modelling of
the source's path computation: `file_path = self.path / name` joins the entry
name directly onto the repository root, ignoring the `path` parameter passed
down the recursion, so every directory and every file is materialized at the
top level.  `step` is the same function at smaller recursion budget; an
exception raised for one entry aborts the remaining entries. -/
def restoreEntriesGo (z : Codec)
    (step : RepoState → Str → PyPath → RepoState × Except PyErr Unit) :
    RepoState → List Entry → RepoState × Except PyErr Unit
  | st, [] => (st, .ok ())
  | st, (m, n, h) :: rest =>
    let file_path : PyPath := [n]
    if m = mode40000 then
      match pyMkdir st file_path with
      | .error e => (st, .error e)
      | .ok st1 =>
        match step st1 h file_path with
        | (st2, .error e) => (st2, .error e)
        | (st2, .ok _) => restoreEntriesGo z step st2 rest
    else
      match load_object z st.objects h with
      | .error e => (st, .error e)
      | .ok blob_obj =>
        match pyWriteFile st file_path blob_obj.content with
        | .error e => (st, .error e)
        | .ok st1 => restoreEntriesGo z step st1 rest

/-- `Repository.restore_files_from_tree`: load and decode the tree (errors
propagate: this method has no try/except), then process its entries in
stored order.  The fuel models Python's recursion limit (`RecursionError` on
a cyclic object graph); it is passed from the caller as one more than the
store size, which any acyclic walk cannot exceed. -/
def restore_files_from_tree (z : Codec) :
    Nat → RepoState → Str → PyPath → RepoState × Except PyErr Unit
  | 0, st, _, _ => (st, .error .recursionError)
  | fuel + 1, st, tree_hash, _path =>
    match load_object z st.objects tree_hash with
    | .error e => (st, .error e)
    | .ok tree_obj =>
      match treeFromContent tree_obj.content with
      | .error e => (st, .error e)
      | .ok entries =>
        restoreEntriesGo z (fun st2 h p => restore_files_from_tree z fuel st2 h p) st entries

/-- Removal loop of `restore_working_directory`: delete each tracked path
that exists as a regular file (missing files and failures are skipped
silently). -/
def removeFiles : RepoState → List Str → RepoState
  | st, [] => st
  | st, rel :: rest =>
    removeFiles { st with workFiles := assocRemove st.workFiles (splitByte 47 rel) } rest

/-- Iteration order of `sorted(files_to_remove)` over the set: sorted unique
relative paths. -/
def sortedUnique (l : List Str) : List Str :=
  List.insertionSort (fun a b => a ≤ b) l.dedup

/-- `Repository.restore_working_directory`: stop when the target branch has
no (truthy) commit; otherwise remove the previous file set, load and parse
the target commit (errors propagate), restore from its root tree when the
tree hash is truthy, and clear the index. -/
def restore_working_directory (z : Codec) (st : RepoState) (branch : Str)
    (files_to_remove : List Str) : RepoState × Except PyErr Unit :=
  match get_branch_commit st branch with
  | none => (st, .ok ())
  | some target_commit_hash =>
    if target_commit_hash = [] then (st, .ok ())
    else
      let st1 := removeFiles st (sortedUnique files_to_remove)
      match load_object z st1.objects target_commit_hash with
      | .error e => (st1, .error e)
      | .ok obj =>
        match commitFromContent obj.content with
        | .error e => (st1, .error e)
        | .ok cd =>
          let afterRestore : RepoState × Except PyErr Unit :=
            match cd.tree_hash with
            | some th =>
              if th = [] then (st1, .ok ())
              else restore_files_from_tree z (st1.objects.length + 1) st1 th []
            | none => (st1, .ok ())
          match afterRestore with
          | (st2, .error e) => (st2, .error e)
          | (st2, .ok _) => (save_index st2 [], .ok ())

/-! ### Checkout -/

/-- Tail of `Repository.checkout` after the branch existence check: update
HEAD to the target branch, restore the working directory, report the
switch. -/
def checkoutProceed (z : Codec) (st : RepoState) (branch : Str)
    (files_to_remove : List Str) (msgs : List Msg) :
    RepoState × List Msg × Except PyErr Unit :=
  let st1 := { st with head := some (refHeadLead ++ branch ++ [10]) }
  match restore_working_directory z st1 branch files_to_remove with
  | (st2, .error e) => (st2, msgs, .error e)
  | (st2, .ok _) => (st2, msgs ++ [.switchedBranch branch], .ok ())

/-- Body of `Repository.checkout` with the current branch made explicit
(the source computes it first thing).  The file-set computation is wrapped in
a try/except that degrades every failure to the empty set; a missing target
ref either creates the branch from the previous commit (create flag, commit
present), reports failure to create (create flag, no commit), or reports a
missing branch and returns with nothing changed. -/
def checkoutFrom (z : Codec) (st : RepoState) (previous_branch : Str) (branch : Str)
    (create_branch : Bool) : RepoState × List Msg × Except PyErr Unit :=
  let previous_commit_hash := get_branch_commit st previous_branch
  let files_to_remove : List Str :=
    match previous_commit_hash with
    | none => []
    | some pch =>
      if pch = [] then []
      else
        match load_object z st.objects pch with
        | .error _ => []
        | .ok obj =>
          match commitFromContent obj.content with
          | .error _ => []
          | .ok cd =>
            match cd.tree_hash with
            | none => []
            | some th =>
              if th = [] then []
              else get_files_from_tree z st.objects (st.objects.length + 1) th []
  match assocGet st.refsHeads branch with
  | none =>
    if create_branch then
      match previous_commit_hash with
      | some pch =>
        if pch = [] then (st, [.cannotCreateBranch branch previous_branch], .ok ())
        else
          match set_branch_commit st branch (some pch) with
          | (st1, .error e) => (st1, [], .error e)
          | (st1, .ok _) => checkoutProceed z st1 branch files_to_remove [.createdBranch branch]
      | none => (st, [.cannotCreateBranch branch previous_branch], .ok ())
    else
      (st, [.branchDoesNotExist branch, .useBOption], .ok ())
  | some _ => checkoutProceed z st branch files_to_remove []

/-- `Repository.checkout`. -/
def checkout (z : Codec) (st : RepoState) (branch : Str) (create_branch : Bool) :
    RepoState × List Msg × Except PyErr Unit :=
  checkoutFrom z st (get_current_branch st) branch create_branch

/-! ### Branch command -/

/-- Listing arm of `Repository.branch`: ref file names not starting with a
dot, sorted, each marked as current when equal to the current branch. -/
def branchListing (st : RepoState) (current_branch : Str) :
    RepoState × List Msg × Except PyErr Unit :=
  let names := (st.refsHeads.map (fun kv => kv.1)).filter
    (fun n => !(([46] : Str).isPrefixOf n))
  let sortedNames := List.insertionSort (fun a b : Str => a ≤ b) names
  (st, sortedNames.map (fun b => .branchLine (b == current_branch) b), .ok ())

/-- Non-delete arm of `Repository.branch` with the current branch made
explicit.  NOTE the faithful modelling of the source's condition: it tests
`if current_branch:` (the branch NAME, virtually always truthy) where the
intent is plainly the current COMMIT, so with no commit it calls
`set_branch_commit(name, None)`, which raises `TypeError`. -/
def branchWithCurrent (st : RepoState) (branch_name : Option Str) (current_branch : Str) :
    RepoState × List Msg × Except PyErr Unit :=
  if optTruthy branch_name then
    let name := branch_name.getD []
    let current_commit := get_branch_commit st current_branch
    if current_branch = [] then (st, [.noCommitsToCreate name], .ok ())
    else
      match set_branch_commit st name current_commit with
      | (st1, .error e) => (st1, [], .error e)
      | (st1, .ok _) => (st1, [.createdBranchAt name current_commit], .ok ())
  else branchListing st current_branch

/-- Delete arm of `Repository.branch`. -/
def branchDelete (st : RepoState) (branch_name : Option Str) :
    RepoState × List Msg × Except PyErr Unit :=
  if !optTruthy branch_name then (st, [.provideBranchName], .ok ())
  else
    let name := branch_name.getD []
    match assocGet st.refsHeads name with
    | none => (st, [.branchDoesNotExist name], .ok ())
    | some _ =>
      ({ st with refsHeads := assocRemove st.refsHeads name }, [.deletedBranch name], .ok ())

/-- `Repository.branch`. -/
def branchCmd (st : RepoState) (branch_name : Option Str) (delete : Bool) :
    RepoState × List Msg × Except PyErr Unit :=
  if delete then branchDelete st branch_name
  else branchWithCurrent st branch_name (get_current_branch st)

/-! ### Commit command -/

/-- Body of `Repository.commit` after the tree build, with the current
branch made explicit.  `now` is the wall clock read by `int(time.time())`.
The returned payload is the new commit hash, or `none` for the two no-op
cases (both printed as the same working-tree-clean message). -/
def commitWithBranch (z : Codec) (st : RepoState) (current_branch : Str) (tree_hash : Str)
    (message author : Str) (now : Int) : RepoState × List Msg × Except PyErr (Option Str) :=
  let parent_commit := get_branch_commit st current_branch
  let parent_hash : List Str := if optTruthy parent_commit then [parent_commit.getD []] else []
  let index := load_index st
  if index = [] then (st, [.nothingToCommit], .ok none)
  else
    let cmp : Except PyErr Bool :=
      if optTruthy parent_commit then
        match load_object z st.objects (parent_commit.getD []) with
        | .error e => .error e
        | .ok obj =>
          match commitFromContent obj.content with
          | .error e => .error e
          | .ok cd => .ok (cd.tree_hash == some tree_hash)
      else .ok false
    match cmp with
    | .error e => (st, [], .error e)
    | .ok true => (st, [.nothingToCommit], .ok none)
    | .ok false =>
      let cd : CommitData := ⟨some tree_hash, parent_hash, some author, some author, message, now⟩
      let hs := store_object z st.objects ⟨commitType, commitSerialize cd⟩
      let st1 := { st with objects := hs.2 }
      match set_branch_commit st1 current_branch (some hs.1) with
      | (st2, .error e) => (st2, [], .error e)
      | (st2, .ok _) =>
        (save_index st2 [], [.committedTo current_branch hs.1], .ok (some hs.1))

/-- `Repository.commit`: build the tree from the index first (an exception
there, including the empty-index raise, propagates before any check), then
resolve the current branch and continue. -/
def commitCmd (z : Codec) (st : RepoState) (message author : Str) (now : Int) :
    RepoState × List Msg × Except PyErr (Option Str) :=
  match create_tree_from_index z st with
  | (st1, .error e) => (st1, [], .error e)
  | (st1, .ok th) => commitWithBranch z st1 (get_current_branch st1) th message author now

/-- `Repository.commit` with the branch selection replaced by an explicit
name (used to state which ref a HEAD-fallback commit consults). -/
def commitCmdAs (z : Codec) (st : RepoState) (b : Str) (message author : Str) (now : Int) :
    RepoState × List Msg × Except PyErr (Option Str) :=
  match create_tree_from_index z st with
  | (st1, .error e) => (st1, [], .error e)
  | (st1, .ok th) => commitWithBranch z st1 b th message author now

/-! ### Log command -/

/-- The `while` loop of `Repository.log`: up to `number` iterations, load and
parse each commit (errors propagate), emit its hash, follow the first
parent.  A falsy hash (absent or empty) stops the walk. -/
def logLoop (z : Codec) (fs : Store) : Nat → Option Str → Except PyErr (List Str)
  | 0, _ => .ok []
  | _ + 1, none => .ok []
  | count + 1, some h =>
    if h = [] then .ok []
    else
      match load_object z fs h with
      | .error e => .error e
      | .ok obj =>
        match commitFromContent obj.content with
        | .error e => .error e
        | .ok cd =>
          match logLoop z fs count cd.parent_hash.head? with
          | .error e => .error e
          | .ok rest => .ok (h :: rest)

/-- Body of `Repository.log` with the current branch made explicit: resolve
its commit (reporting when there is none) and run the walk.  The payload is
the list of commit hashes printed (author, date and message rendering is
presentation and not modelled). -/
def logWithBranch (z : Codec) (st : RepoState) (current_branch : Str) (number : Nat) :
    List Msg × Except PyErr (List Str) :=
  match get_branch_commit st current_branch with
  | none => ([.noCommitsYet], .ok [])
  | some h =>
    if h = [] then ([.noCommitsYet], .ok [])
    else
      match logLoop z st.objects number (some h) with
      | .error e => ([], .error e)
      | .ok hashes => ([], .ok hashes)

/-- `Repository.log`. -/
def logCmd (z : Codec) (st : RepoState) (number : Nat) : List Msg × Except PyErr (List Str) :=
  logWithBranch z st (get_current_branch st) number

/-! ### Helper lemmas about the store and the tree builder -/

/-- Number of files stored under a sharded key. -/
def countKey (fs : Store) (k : ShardKey) : Nat :=
  (fs.filter (fun kv => decide (kv.1 = k))).length

theorem countKey_eq_zero : ∀ {fs : Store} {k : ShardKey},
    assocGet fs k = none → countKey fs k = 0
  | [], _, _ => rfl
  | (k0, v0) :: rest, k, h => by
    by_cases hk : k0 = k
    · simp [assocGet, hk] at h
    · simp only [assocGet, if_neg hk] at h
      simpa [countKey, hk] using countKey_eq_zero h

/-- On an empty index, `create_tree_from_index` stores the empty tree and
then raises (the `raise self.store_object(tree)` statement). -/
theorem create_tree_from_index_empty (z : Codec) (st : RepoState) (h : st.index = []) :
    create_tree_from_index z st =
      ({ st with objects := (store_object z st.objects ⟨treeType, []⟩).2 }, .error .typeError) := by
  simp [create_tree_from_index, load_index, h]

/-- `create_tree_from_index` mutates only the object store: HEAD, refs,
index and the working directory are untouched on every path. -/
theorem create_tree_from_index_preserves (z : Codec) (st : RepoState) :
    (create_tree_from_index z st).1.head = st.head ∧
    (create_tree_from_index z st).1.refsHeads = st.refsHeads ∧
    (create_tree_from_index z st).1.index = st.index ∧
    (create_tree_from_index z st).1.workFiles = st.workFiles ∧
    (create_tree_from_index z st).1.workDirs = st.workDirs := by
  have h : ∃ obs, (create_tree_from_index z st).1 = { st with objects := obs } := by
    by_cases hi : st.index = []
    · exact ⟨(store_object z st.objects ⟨treeType, []⟩).2, by simp [create_tree_from_index, load_index, hi]⟩
    · cases hp : partitionGo st.index [] [] with
      | error e =>
        refine ⟨st.objects, ?_⟩
        simp [create_tree_from_index, load_index, hi, hp]
      | ok fd =>
        obtain ⟨files, dirs⟩ := fd
        cases hc : createTreeRecursive z st.objects
            (dirs.foldl (fun acc nv => assocSet acc nv.1 nv.2)
              (files.map (fun fh => (fh.1, PyVal.str fh.2)))) with
        | error e =>
          refine ⟨st.objects, ?_⟩
          simp [create_tree_from_index, load_index, hi, hp, hc]
        | ok hfs =>
          refine ⟨hfs.2, ?_⟩
          simp [create_tree_from_index, load_index, hi, hp, hc]
  obtain ⟨obs, h⟩ := h
  rw [h]
  exact ⟨rfl, rfl, rfl, rfl, rfl⟩

/-! ### Theorems for the state-machine claims -/

/-- The post-`init` repository state: symbolic HEAD at master, no refs, empty
index, empty store, empty working directory. -/
def freshRepo : RepoState :=
  ⟨some (refHeadLead ++ masterName ++ [10]), [], [], [], [], []⟩

/-- C7: `store_object` is idempotent.  Starting from a store with no file at
the object's sharded path: the first call returns the digest and writes one
file; the second call returns the same digest, leaves the store identical
(the write is skipped because the sharded path exists), and exactly one file
with that key remains. -/
theorem c7_store_object_idempotent (z : Codec) (fs : Store) (obj : GitObject)
    (h : assocGet fs (shardKey (gitHash obj)) = none) :
    (store_object z fs obj).1 = gitHash obj ∧
    (store_object z (store_object z fs obj).2 obj).1 = (store_object z fs obj).1 ∧
    (store_object z (store_object z fs obj).2 obj).2 = (store_object z fs obj).2 ∧
    countKey (store_object z fs obj).2 (shardKey (gitHash obj)) = 1 := by
  have h1 : store_object z fs obj
      = (gitHash obj, (shardKey (gitHash obj), serialize z obj) :: fs) := by
    simp [store_object, h]
  have h2 : store_object z ((shardKey (gitHash obj), serialize z obj) :: fs) obj
      = (gitHash obj, (shardKey (gitHash obj), serialize z obj) :: fs) := by
    simp [store_object, assocGet]
  have h0 := countKey_eq_zero h
  rw [h1, h2]
  refine ⟨rfl, rfl, rfl, ?_⟩
  simp [countKey] at h0 ⊢
  exact h0

/-- Witness for C7: the identity codec, the empty store, and a blob of two
bytes. -/
theorem c7_store_object_idempotent_witness :
    assocGet ([] : Store) (shardKey (gitHash (Blob [104, 105]))) = none ∧
    ((store_object idCodec [] (Blob [104, 105])).1 = gitHash (Blob [104, 105]) ∧
     (store_object idCodec (store_object idCodec [] (Blob [104, 105])).2 (Blob [104, 105])).1 =
       (store_object idCodec [] (Blob [104, 105])).1 ∧
     (store_object idCodec (store_object idCodec [] (Blob [104, 105])).2 (Blob [104, 105])).2 =
       (store_object idCodec [] (Blob [104, 105])).2 ∧
     countKey (store_object idCodec [] (Blob [104, 105])).2
       (shardKey (gitHash (Blob [104, 105]))) = 1) :=
  ⟨rfl, c7_store_object_idempotent idCodec [] (Blob [104, 105]) rfl⟩

/-- C2 (code bug): on an empty index, `create_tree_from_index` does build and
store the empty tree, but then the `raise self.store_object(tree)` statement
raises `TypeError` instead of returning the hash: the function fails rather
than returning the empty-tree hash normally, contradicting the claim. -/
theorem c2_create_tree_empty_index_raises (z : Codec) (st : RepoState) (h : st.index = []) :
    (create_tree_from_index z st).2 = .error .typeError ∧
    (create_tree_from_index z st).1 =
      { st with objects := (store_object z st.objects ⟨treeType, []⟩).2 } := by
  rw [create_tree_from_index_empty z st h]
  exact ⟨rfl, rfl⟩

/-- Witness for C2 at the post-init state. -/
theorem c2_create_tree_empty_index_raises_witness :
    freshRepo.index = [] ∧
    ((create_tree_from_index idCodec freshRepo).2 = .error .typeError ∧
     (create_tree_from_index idCodec freshRepo).1 =
       { freshRepo with objects := (store_object idCodec freshRepo.objects ⟨treeType, []⟩).2 }) :=
  ⟨rfl, c2_create_tree_empty_index_raises idCodec freshRepo rfl⟩

/-- C3 (code bug): `commit` with an empty index is not the claimed quiet
no-op.  The first statement, `create_tree_from_index`, raises `TypeError`
(see C2) before the empty-index check is reached, so nothing is printed (in
particular not the nothing-to-commit message), no commit is created, and no
ref moves — but the call fails with an exception instead of returning None. -/
theorem c3_commit_empty_index_raises (z : Codec) (st : RepoState)
    (message author : Str) (now : Int) (h : st.index = []) :
    (commitCmd z st message author now).2.2 = .error .typeError ∧
    (commitCmd z st message author now).2.1 = [] ∧
    (commitCmd z st message author now).1.refsHeads = st.refsHeads ∧
    (commitCmd z st message author now).1.head = st.head ∧
    (commitCmd z st message author now).1.index = st.index := by
  unfold commitCmd
  rw [create_tree_from_index_empty z st h]
  exact ⟨rfl, rfl, rfl, rfl, rfl⟩

/-- Witness for C3 at the post-init state. -/
theorem c3_commit_empty_index_raises_witness :
    freshRepo.index = [] ∧
    ((commitCmd idCodec freshRepo [109] [97] 0).2.2 = .error .typeError ∧
     (commitCmd idCodec freshRepo [109] [97] 0).2.1 = [] ∧
     (commitCmd idCodec freshRepo [109] [97] 0).1.refsHeads = freshRepo.refsHeads ∧
     (commitCmd idCodec freshRepo [109] [97] 0).1.head = freshRepo.head ∧
     (commitCmd idCodec freshRepo [109] [97] 0).1.index = freshRepo.index) :=
  ⟨rfl, c3_commit_empty_index_raises idCodec freshRepo [109] [97] 0 rfl⟩

/-- C4 (code bug): `branch(name)` tests `if current_branch:` where the intent
is the current COMMIT.  When the current branch has no commit, the truthy
branch-name check passes and `set_branch_commit(name, None)` raises
`TypeError` (from `None + "\n"`) — the state is unchanged and no ref file is
written, but the reported `NoCommitsYet`-style message is never printed.
When the current branch has a commit, the new ref is written pointing at
exactly that commit hash. -/
theorem c4_branch_no_commit_type_error (st : RepoState) (name : Str)
    (hname : name ≠ []) (hcb : get_current_branch st ≠ []) :
    (get_branch_commit st (get_current_branch st) = none →
      branchCmd st (some name) false = (st, [], .error .typeError)) ∧
    (∀ c, get_branch_commit st (get_current_branch st) = some c →
      branchCmd st (some name) false =
        ({ st with refsHeads := assocSet st.refsHeads name (c ++ [10]) },
         [.createdBranchAt name (some c)], .ok ())) := by
  obtain ⟨x, xs, rfl⟩ := List.exists_cons_of_ne_nil hname
  constructor
  · intro h
    simp [branchCmd, branchWithCurrent, optTruthy, h, hcb, set_branch_commit]
  · intro c h
    simp [branchCmd, branchWithCurrent, optTruthy, h, hcb, set_branch_commit]

/-- Witness for C4: the post-init state (HEAD at master, no master ref, so no
commit) and a one-byte branch name. -/
theorem c4_branch_no_commit_type_error_witness :
    ([100] : Str) ≠ [] ∧ get_current_branch freshRepo ≠ [] ∧
    get_branch_commit freshRepo (get_current_branch freshRepo) = none ∧
    branchCmd freshRepo (some [100]) false = (freshRepo, [], .error .typeError) :=
  ⟨by decide, by decide, rfl,
   (c4_branch_no_commit_type_error freshRepo [100] (by decide) (by decide)).1 rfl⟩

/-- Concrete blob for C1: file content of five bytes (the word hello). -/
def c1Blob : GitObject := Blob [104, 101, 108, 108, 111]

/-- Concrete subtree for C1: one regular-file entry named a.txt holding the
blob's hash. -/
def c1SubTree : GitObject :=
  ⟨treeType,
   (serializeEntries [(mode100644, [97, 46, 116, 120, 116], gitHash c1Blob)]).toOption.getD []⟩

/-- Concrete root tree for C1: one directory entry named dir holding the
subtree's hash. -/
def c1RootTree : GitObject :=
  ⟨treeType,
   (serializeEntries [(mode40000, [100, 105, 114], gitHash c1SubTree)]).toOption.getD []⟩

/-- Concrete repository state for C1: the blob, subtree and root tree stored;
empty working directory. -/
def c1State : RepoState :=
  ⟨some (refHeadLead ++ masterName ++ [10]), [], [],
   (store_object idCodec
     (store_object idCodec (store_object idCodec [] c1Blob).2 c1SubTree).2 c1RootTree).2,
   [], []⟩

set_option maxRecDepth 1000000 in
/-- C1 (code bug): walking the root tree during checkout restoration does NOT
write a nested blob at its repository-relative path.  For the concrete tree
dir/a.txt, `restore_files_from_tree` succeeds, creates the directory dir at
the root, but writes the file at root-level a.txt — the nested path
dir/a.txt receives nothing — because the source computes
`file_path = self.path / name` from the entry name alone, ignoring the `path`
parameter threaded through the recursion. -/
theorem c1_restore_writes_nested_file_at_root :
    (restore_files_from_tree idCodec 4 c1State (gitHash c1RootTree) []).2 = .ok () ∧
    (restore_files_from_tree idCodec 4 c1State (gitHash c1RootTree) []).1.workDirs =
      [[[100, 105, 114]]] ∧
    (restore_files_from_tree idCodec 4 c1State (gitHash c1RootTree) []).1.workFiles =
      [([[97, 46, 116, 120, 116]], [104, 101, 108, 108, 111])] ∧
    assocGet (restore_files_from_tree idCodec 4 c1State (gitHash c1RootTree) []).1.workFiles
      [[100, 105, 114], [97, 46, 116, 120, 116]] = none :=
  ⟨rfl, rfl, rfl, rfl⟩

/-- C8: checking out a branch whose ref file does not exist, without the
create flag, reports the missing branch (and the hint to use the create
option) and returns with the state exactly unchanged: HEAD keeps its prior
content, no working-directory file is removed or written, and the index is
not cleared. -/
theorem c8_checkout_missing_branch_noop (z : Codec) (st : RepoState) (branch : Str)
    (h : assocGet st.refsHeads branch = none) :
    checkout z st branch false =
      (st, [Msg.branchDoesNotExist branch, Msg.useBOption], .ok ()) := by
  simp [checkout, checkoutFrom, h]

/-- Witness for C8: the post-init state and a three-byte branch name with no
ref file. -/
theorem c8_checkout_missing_branch_noop_witness :
    assocGet freshRepo.refsHeads [100, 101, 118] = none ∧
    checkout idCodec freshRepo [100, 101, 118] false =
      (freshRepo, [Msg.branchDoesNotExist [100, 101, 118], Msg.useBOption], .ok ()) :=
  ⟨rfl, c8_checkout_missing_branch_noop idCodec freshRepo [100, 101, 118] rfl⟩

/-- C10: when the HEAD file exists but its (stripped) content does not start
with the sixteen-byte symbolic lead, `get_current_branch` returns the literal
four-byte name HEAD — not master, which is returned exactly when the HEAD
file is absent — and this fallback name is then used as an ordinary branch
name by commit, checkout, branch listing and log (each command body equals
the same body with the current branch fixed to that name). -/
theorem c10_head_fallback (st : RepoState) (bs : Bytes)
    (h1 : st.head = some bs)
    (h2 : refHeadLead.isPrefixOf (pyStrip bs) = false) :
    get_current_branch st = headName ∧
    (∀ st2 : RepoState, st2.head = none → get_current_branch st2 = masterName) ∧
    (∀ z n, logCmd z st n = logWithBranch z st headName n) ∧
    (∀ z b c, checkout z st b c = checkoutFrom z st headName b c) ∧
    (∀ name, branchCmd st name false = branchWithCurrent st name headName) ∧
    (∀ z m a now, commitCmd z st m a now = commitCmdAs z st headName m a now) := by
  have hcb : get_current_branch st = headName := by
    unfold get_current_branch
    rw [h1]
    simp [h2]
  refine ⟨hcb, ?_, ?_, ?_, ?_, ?_⟩
  · intro st2 h
    unfold get_current_branch
    rw [h]
  · intro z n
    unfold logCmd
    rw [hcb]
  · intro z b c
    unfold checkout
    rw [hcb]
  · intro name
    simp [branchCmd, hcb]
  · intro z m a now
    unfold commitCmd commitCmdAs
    have hpres := (create_tree_from_index_preserves z st).1
    cases hct : create_tree_from_index z st with
    | mk st1 r =>
      rw [hct] at hpres
      cases r with
      | error e => rfl
      | ok th =>
        have hbr : get_current_branch st1 = headName := by
          unfold get_current_branch
          rw [show st1.head = st.head from hpres, h1]
          simp [h2]
        exact (by rw [hbr] :
          commitWithBranch z st1 (get_current_branch st1) th m a now =
            commitWithBranch z st1 headName th m a now)

/-- Witness for C10: a repository whose HEAD file holds a bare word followed
by a newline (detached-style content that is not a symbolic ref). -/
theorem c10_head_fallback_witness :
    (RepoState.mk (some [97, 98, 99, 10]) [] [] [] [] []).head = some [97, 98, 99, 10] ∧
    refHeadLead.isPrefixOf (pyStrip [97, 98, 99, 10]) = false ∧
    get_current_branch (RepoState.mk (some [97, 98, 99, 10]) [] [] [] [] []) = headName :=
  ⟨rfl, by decide,
   (c10_head_fallback (RepoState.mk (some [97, 98, 99, 10]) [] [] [] [] [])
     [97, 98, 99, 10] rfl (by decide)).1⟩

end PyGit
